import Mathlib

/-!
Verification of the configuration-bundle resolution module (buildkit/config.py).

The definitions below are a shallow embedding of the Python source:
filesystem contents are passed explicitly (a path-to-content function),
mutating methods become state-passing functions, and raised exceptions
become `Except` errors.  Machine-level details (logging, the actual
directory layout) are abstracted; the control flow, branch order and data
transformations follow the source line by line.
-/

set_option maxHeartbeats 1000000

/-- Errors raised by the config module: FileNotFoundError, the ValueError
raised for a duplicate base-bundle dependency, the FileNotFoundError or
schema ValueError from loading basebundlemeta.ini, and the ValueError
raised by tuple unpacking in MappingConfigFile._parse_data. -/
inductive ConfigError
  | fileNotFound
  | duplicateDependency
  | metadataError
  | valueError
  deriving DecidableEq, Repr

/-- Embedding of _ConfigABC._check_path_add: a path already in the order
is reported as not-to-add without touching the filesystem; otherwise a
missing path raises FileNotFoundError. -/
def check_path_add {Path : Type} [DecidableEq Path] (fs : Path → Bool)
    (order : List Path) (p : Path) : Except ConfigError Bool :=
  if p ∈ order then .ok false
  else if fs p then .ok true
  else .error .fileNotFound

/-- Embedding of _ConfigABC.update_first_path: prepend p to the layered
path list if it is new; the Bool reports whether it was added. -/
def update_first_path {Path : Type} [DecidableEq Path] (fs : Path → Bool)
    (order : List Path) (p : Path) : Except ConfigError (Bool × List Path) :=
  match check_path_add fs order p with
  | .error e => .error e
  | .ok true => .ok (true, p :: order)
  | .ok false => .ok (false, order)

/-- Embedding of _ConfigABC.update_last_path: append p to the layered
path list if it is new; the Bool reports whether it was added. -/
def update_last_path {Path : Type} [DecidableEq Path] (fs : Path → Bool)
    (order : List Path) (p : Path) : Except ConfigError (Bool × List Path) :=
  match check_path_add fs order p with
  | .error e => .error e
  | .ok true => .ok (true, order ++ [p])
  | .ok false => .ok (false, order)

/-- The environment ConfigBundle.from_base_name runs in.  A bundle name
stands for its directory config_bundles_dir / name (the map name-to-path
is injective, so the directory is identified with the name).  dirExists
tells whether that directory exists; meta gives the declared dependency
list of basebundlemeta.ini, or none when the metadata file is missing or
fails schema validation. -/
structure BundleEnv (Name : Type) where
  dirExists : Name → Bool
  meta : Name → Option (List Name)

/-- Embedding of the `for dependency_name in basebundlemeta.depends` loop
of ConfigBundle.from_base_name: each dependency directory is offered to
update_first_path; a newly added name is pushed with appendleft, i.e.
consed onto the left end of the pending deque. -/
def explore_deps {Name : Type} [DecidableEq Name] (dirEx : Name → Bool) :
    List Name → List Name → List Name → Except ConfigError (List Name × List Name)
  | [], order, pending => .ok (order, pending)
  | d :: rest, order, pending =>
    match update_first_path dirEx order d with
    | .error e => .error e
    | .ok (true, order2) => explore_deps dirEx rest order2 (d :: pending)
    | .ok (false, order2) => explore_deps dirEx rest order2 pending

/-- Embedding of the `while pending_explore` loop of
ConfigBundle.from_base_name.  The deque is a list whose head is its left
end: pending_explore.pop() takes the rightmost element (getLast?) and
appendleft conses on the left.  The result is the final layered path
list, front to back; none means the fuel ran out (the Python loop can
run forever on an infinite dependency chain). -/
def resolve_loop {Name : Type} [DecidableEq Name] (env : BundleEnv Name) :
    Nat → List Name → List Name → List Name → Option (Except ConfigError (List Name))
  | 0, _, _, _ => none
  | fuel + 1, order, pending, known =>
    match pending.getLast? with
    | none => some (.ok order)
    | some n =>
      if n ∈ known then some (.error .duplicateDependency)
      else
        match env.meta n with
        | none => some (.error .metadataError)
        | some deps =>
          match explore_deps env.dirExists deps order pending.dropLast with
          | .error e => some (.error e)
          | .ok (order2, pending2) => resolve_loop env fuel order2 pending2 (n :: known)

/-- Embedding of ConfigBundle.from_base_name, returning the front-to-back
layered path list of the constructed bundle.  The constructor raises
FileNotFoundError when the named bundle directory is missing; the binding
of the patches directory after the loop does not change the path order. -/
def from_base_name {Name : Type} [DecidableEq Name] (env : BundleEnv Name)
    (name : Name) (fuel : Nat) : Option (Except ConfigError (List Name)) :=
  if env.dirExists name then resolve_loop env fuel [name] [name] []
  else some (.error .fileNotFound)

/-- Whether a from_base_name outcome is the duplicate-dependency ValueError. -/
def isDuplicateError {Name : Type} : Option (Except ConfigError (List Name)) → Bool
  | some (.error .duplicateDependency) => true
  | _ => false

/-- Modelled from the spec: the queue-based, breadth-first, declaration-order
resolution of the dependency graph.  Dependencies are dequeued from the head
and enqueued at the tail in declaration order; a newly discovered dependency
directory is prepended to the layer order. -/
def spec_bfs_explore_deps {Name : Type} [DecidableEq Name] (dirEx : Name → Bool) :
    List Name → List Name → List Name → Except ConfigError (List Name × List Name)
  | [], order, queue => .ok (order, queue)
  | d :: rest, order, queue =>
    if d ∈ order then spec_bfs_explore_deps dirEx rest order queue
    else if dirEx d then spec_bfs_explore_deps dirEx rest (d :: order) (queue ++ [d])
    else .error .fileNotFound

/-- Modelled from the spec: the main loop of the breadth-first linearization,
a plain FIFO queue processed from the head. -/
def spec_bfs_loop {Name : Type} [DecidableEq Name] (env : BundleEnv Name) :
    Nat → List Name → List Name → List Name → Option (Except ConfigError (List Name))
  | 0, _, _, _ => none
  | fuel + 1, order, queue, known =>
    match queue with
    | [] => some (.ok order)
    | n :: rest =>
      if n ∈ known then some (.error .duplicateDependency)
      else
        match env.meta n with
        | none => some (.error .metadataError)
        | some deps =>
          match spec_bfs_explore_deps env.dirExists deps order rest with
          | .error e => some (.error e)
          | .ok (order2, queue2) => spec_bfs_loop env fuel order2 queue2 (n :: known)

/-- Modelled from the spec: breadth-first, declaration-order resolution of a
base bundle name into a layer order. -/
def spec_bfs_from_base_name {Name : Type} [DecidableEq Name] (env : BundleEnv Name)
    (name : Name) (fuel : Nat) : Option (Except ConfigError (List Name)) :=
  if env.dirExists name then spec_bfs_loop env fuel [name] [name] []
  else some (.error .fileNotFound)

/-- Modelled from the spec claim: stack-based, depth-first, declaration-order
traversal of the dependency graph.  Every newly discovered dependency is
prepended to the layer order and its own dependencies are explored fully
before the next declared dependency of its parent. -/
def spec_dfs_visit {Name : Type} [DecidableEq Name] (env : BundleEnv Name) :
    Nat → List Name → List Name → Option (List Name)
  | 0, _, _ => none
  | _ + 1, [], order => some order
  | fuel + 1, d :: rest, order =>
    if d ∈ order then spec_dfs_visit env fuel rest order
    else
      match spec_dfs_visit env fuel ((env.meta d).getD []) (d :: order) with
      | none => none
      | some order2 => spec_dfs_visit env fuel rest order2

/-- Modelled from the spec claim: the depth-first, declaration-order
linearization of the dependency graph rooted at a bundle name. -/
def spec_dfs_from_base_name {Name : Type} [DecidableEq Name] (env : BundleEnv Name)
    (name : Name) (fuel : Nat) : Option (List Name) :=
  spec_dfs_visit env fuel ((env.meta name).getD []) [name]

/-- Splitting a character list at every occurrence of a separator, the
semantics of Python str.split with a one-character separator: the
separator is dropped and empty fields are kept. -/
def splitChar (sep : Char) : List Char → List (List Char)
  | [] => [[]]
  | c :: cs =>
    match splitChar sep cs with
    | [] => [[]]
    | w :: ws => if c = sep then [] :: w :: ws else (c :: w) :: ws

/-- Embedding of `filter(len, content.splitlines())`: the non-empty lines of
a file's text, in order.  splitlines is modelled as splitting at every
newline character, which agrees with it on newline-delimited text once the
empty fields are filtered out. -/
def readLines (content : String) : List String :=
  ((splitChar '\n' content.data).filter (fun l => !l.isEmpty)).map String.mk

/-- Embedding of ListConfigFile._line_generator: the non-empty lines of
every layer path, concatenated in iteration order. -/
def line_generator {Path : Type} (fs : Path → String) : List Path → List String
  | [] => []
  | p :: rest => readLines (fs p) ++ line_generator fs rest

/-- Per-access result of reading a config file's content: the value, the
trace of layer paths whose files were opened during this access, and the
object's state afterwards. -/
structure AccessResult (Path α σ : Type) where
  value : α
  reads : List Path
  state : σ
  deriving DecidableEq, Repr

/-- Embedding of ListConfigFile: only the layered path list — the class
does not take the _CacheConfigMixin and holds no cache field. -/
structure ListConfigFile (Path : Type) where
  path_order : List Path
  deriving DecidableEq, Repr

/-- Embedding of a content access on ListConfigFile: _ConfigABC._config_data
calls _parse_data, which builds a fresh line generator, so consuming the
returned iterator opens every layer file again on every access. -/
def list_config_data {Path : Type} (fs : Path → String) (f : ListConfigFile Path) :
    AccessResult Path (List String) (ListConfigFile Path) :=
  ⟨line_generator fs f.path_order, f.path_order, f⟩

/-- Embedding of `key, value = line.split('=')` in
MappingConfigFile._parse_data: the split is on every '=', and unpacking
into two names raises ValueError unless the split has exactly two fields. -/
def split_unpack2 (line : String) : Except ConfigError (String × String) :=
  match splitChar '=' line.data with
  | [k, v] => .ok (String.mk k, String.mk v)
  | _ => .error .valueError

/-- Embedding of `new_dict[key] = value` on a Python dict kept as an
association list in insertion order: an existing key has its value
replaced in place, a new key is appended at the end. -/
def dictInsert (d : List (String × String)) (k v : String) : List (String × String) :=
  if d.any (fun q => q.1 == k) then d.map (fun q => if q.1 == k then (k, v) else q)
  else d ++ [(k, v)]

/-- Lookup in a Python dict kept as an association list. -/
def dictLookup (d : List (String × String)) (k : String) : Option String :=
  (d.find? (fun q => q.1 == k)).map (fun q => q.2)

/-- Embedding of the inner line loop of MappingConfigFile._parse_data. -/
def parse_mapping_lines (d : List (String × String)) :
    List String → Except ConfigError (List (String × String))
  | [] => .ok d
  | line :: rest =>
    match split_unpack2 line with
    | .error e => .error e
    | .ok (k, v) => parse_mapping_lines (dictInsert d k v) rest

/-- Embedding of the path loop of MappingConfigFile._parse_data. -/
def parse_mapping_paths {Path : Type} (fs : Path → String) (d : List (String × String)) :
    List Path → Except ConfigError (List (String × String))
  | [] => .ok d
  | p :: rest =>
    match parse_mapping_lines d (readLines (fs p)) with
    | .error e => .error e
    | .ok d2 => parse_mapping_paths fs d2 rest

/-- Embedding of MappingConfigFile._parse_data: merge every layer into one
dictionary, starting from the empty one. -/
def mapping_parse_data {Path : Type} (fs : Path → String) (order : List Path) :
    Except ConfigError (List (String × String)) :=
  parse_mapping_paths fs [] order

/-- Embedding of MappingConfigFile's state: the layered path list and the
_read_cache field of _CacheConfigMixin (initially Python None). -/
structure MappingConfigFile (Path : Type) where
  path_order : List Path
  read_cache : Option (List (String × String))
  deriving DecidableEq, Repr

/-- The parse-and-store branch of _CacheConfigMixin._config_data: call the
parser (reading every layer path in iteration order) and assign the result
to _read_cache. -/
def mapping_parse_run {Path : Type} (fs : Path → String) (f : MappingConfigFile Path) :
    Except ConfigError (AccessResult Path (List (String × String)) (MappingConfigFile Path)) :=
  match mapping_parse_data fs f.path_order with
  | .error e => .error e
  | .ok d => .ok ⟨d, f.path_order, ⟨f.path_order, some d⟩⟩

/-- Embedding of _CacheConfigMixin._config_data for MappingConfigFile.
The guard is `if self._read_cache:`, Python truthiness: it falls through
to a fresh parse both when the cache is None and when it holds an empty
dictionary. -/
def mapping_config_data {Path : Type} (fs : Path → String) (f : MappingConfigFile Path) :
    Except ConfigError (AccessResult Path (List (String × String)) (MappingConfigFile Path)) :=
  match f.read_cache with
  | some d => if !d.isEmpty then .ok ⟨d, [], f⟩ else mapping_parse_run fs f
  | none => mapping_parse_run fs f

/-- n successive content accesses on a MappingConfigFile, collecting the
read trace of each access in order. -/
def mapping_access_iter {Path : Type} (fs : Path → String) :
    Nat → MappingConfigFile Path → Except ConfigError (List (List Path) × MappingConfigFile Path)
  | 0, f => .ok ([], f)
  | n + 1, f =>
    match mapping_config_data fs f with
    | .error e => .error e
    | .ok r =>
      match mapping_access_iter fs n r.state with
      | .error e => .error e
      | .ok (trs, fin) => .ok (r.reads :: trs, fin)

/-- Analysis view of one mapping layer: the key-value pairs of its
non-empty lines in line order (no dictionary merging yet). -/
def parse_pairs_lines : List String → Except ConfigError (List (String × String))
  | [] => .ok []
  | line :: rest =>
    match split_unpack2 line with
    | .error e => .error e
    | .ok kv =>
      match parse_pairs_lines rest with
      | .error e => .error e
      | .ok ps => .ok (kv :: ps)

/-- The key-value pairs contributed by one layer path. -/
def layer_pairs {Path : Type} (fs : Path → String) (p : Path) :
    Except ConfigError (List (String × String)) :=
  parse_pairs_lines (readLines (fs p))

/-- The key-value pairs of all layers, concatenated in iteration order. -/
def all_pairs {Path : Type} (fs : Path → String) :
    List Path → Except ConfigError (List (String × String))
  | [] => .ok []
  | p :: rest =>
    match layer_pairs fs p with
    | .error e => .error e
    | .ok ps =>
      match all_pairs fs rest with
      | .error e => .error e
      | .ok qs => .ok (ps ++ qs)

/-- The value of the last pair carrying a given key, later pairs taking
precedence; none when no pair carries the key. -/
def lastAssign (k : String) : List (String × String) → Option String
  | [] => none
  | q :: t =>
    match lastAssign k t with
    | some v => some v
    | none => if q.1 == k then some q.2 else none

/-- Embedding of ExtraDepsIni._hashes: the supported hash algorithm names. -/
def extra_deps_hashes : List String := ["md5", "sha1", "sha256", "sha512"]

/-- Embedding of ExtraDepsIni._required_keys. -/
def extra_deps_required_keys : List String := ["version", "url", "download_name"]

/-- Embedding of ExtraDepsIni._optional_keys: the source writes the
parenthesized expression ('strip_leading_dirs') without a trailing comma,
which in Python is the plain string, not a one-element tuple. -/
def extra_deps_optional_keys : String := "strip_leading_dirs"

/-- Embedding of ExtraDepsIni._passthrough_properties: star-unpacking the
required-keys tuple and the _optional_keys value; unpacking a string
yields its characters, each a one-character string. -/
def extra_deps_passthrough_properties : List String :=
  extra_deps_required_keys ++ extra_deps_optional_keys.data.map (fun c => String.mk [c])

/-- An attribute value produced by _ExtraDepsSection.__getattr__: a section
value, or the checksum dictionary.  Python's implicit `return None` and the
fallback=None of section lookup both come out as Option.none around this. -/
inductive AttrValue
  | str (s : String)
  | dict (h : List (String × String))
  deriving DecidableEq, Repr

/-- Embedding of ExtraDepsIni._ExtraDepsSection.__getattr__: a passthrough
property reads the section with fallback None; the name hashes builds the
checksum dictionary from the hash keys actually present (and truthy); any
other name falls off the end of the method and returns None. -/
def extraDepsGetattr (sec : List (String × String)) (name : String) : Option AttrValue :=
  if name ∈ extra_deps_passthrough_properties then (dictLookup sec name).map AttrValue.str
  else if name == "hashes" then
    some (AttrValue.dict (extra_deps_hashes.foldl
      (fun d h =>
        match dictLookup sec h with
        | some v => if !v.isEmpty then d ++ [(h, v)] else d
        | none => d)
      []))
  else none

/-- Embedding of VersionIni.version_string over the merged [version]
section: required keys are read with item access (KeyError, modelled as
none, if absent); release_extra is read with fallback None, and the
Python truthiness test `if self.release_extra:` skips the suffix both for
None and for the empty string. -/
def version_string (sec : List (String × String)) : Option String :=
  match dictLookup sec ("chromium_version"), dictLookup sec ("release_revision") with
  | some cv, some rr =>
    let result := cv ++ "-" ++ rr
    match dictLookup sec ("release_extra") with
    | some extra => if extra == "" then some result else some (result ++ "~" ++ extra)
    | none => some result
  | _, _ => none

/-- Dependency graph for the depth-first counterexample: bundle 0 depends
on 1 then 2, bundle 1 depends on 3, bundles 2 and 3 have no dependencies;
every directory and metadata file exists. -/
def c1env : BundleEnv Nat :=
  ⟨fun _ => true,
   fun n => if n = 0 then some [1, 2] else if n = 1 then some [3] else some []⟩

/-- Dependency graph with a direct self-dependency: bundle 0 depends on
bundle 0. -/
def c2env : BundleEnv Nat := ⟨fun _ => true, fun _ => some [0]⟩

/-- One-layer filesystem for the list-file re-read counterexample. -/
def c3fs : Nat → String := fun _ => "x"

/-- One-layer filesystem whose single line has two '=' characters. -/
def c4fs : Nat → String := fun _ => "a=b=c"

/-- Two layers that both define the key k. -/
def c5fs : Nat → String := fun n => if n = 0 then "k=1" else "k=2"

/-- Two layers for the pure-concatenation example: the first has lines a
and b separated by a blank line, the second the single line c. -/
def c6fs : Nat → String := fun n => if n = 0 then "a\n\nb" else "c"

/-- Extra-deps section with all required keys, the optional
strip_leading_dirs key present, and sha256 as the only checksum. -/
def c8sec : List (String × String) :=
  [("version", "1.0"), ("url", "https:u"), ("download_name", "dl"),
   ("strip_leading_dirs", "inner"), ("sha256", "cafe")]

/-- One-layer filesystem whose mapping layer is empty (no lines). -/
def c10fs : Nat → String := fun _ => ""

/-- First option if present, else the fallback: the override combinator
used to state last-wins lookups. -/
def orElseOpt (o : Option String) (fallback : Option String) : Option String :=
  match o with
  | some v => some v
  | none => fallback

/-- Unfolded form of update_first_path: membership is decided first, then
existence, then the prepend. -/
theorem update_first_path_eq {Path : Type} [DecidableEq Path] (fs : Path → Bool)
    (order : List Path) (p : Path) :
    update_first_path fs order p =
      if p ∈ order then .ok (false, order)
      else if fs p then .ok (true, p :: order)
      else .error .fileNotFound := by
  by_cases h : p ∈ order <;> cases hf : fs p <;>
    simp [update_first_path, check_path_add, h, hf]

/-- Unfolded form of update_last_path: membership is decided first, then
existence, then the append. -/
theorem update_last_path_eq {Path : Type} [DecidableEq Path] (fs : Path → Bool)
    (order : List Path) (p : Path) :
    update_last_path fs order p =
      if p ∈ order then .ok (false, order)
      else if fs p then .ok (true, order ++ [p])
      else .error .fileNotFound := by
  by_cases h : p ∈ order <;> cases hf : fs p <;>
    simp [update_last_path, check_path_add, h, hf]

/-- C7: for every layered path list and path p, a member p makes both
update_first_path and update_last_path return False with the order
unchanged, whatever the filesystem says about p; a non-member missing
from the filesystem makes both raise FileNotFoundError; a non-member
that exists is added at the front, resp. the back, with True returned. -/
theorem update_path_contract {Path : Type} [DecidableEq Path] (fs : Path → Bool)
    (order : List Path) (p : Path) :
    (p ∈ order →
      update_first_path fs order p = .ok (false, order) ∧
      update_last_path fs order p = .ok (false, order)) ∧
    (p ∉ order → fs p = false →
      update_first_path fs order p = .error .fileNotFound ∧
      update_last_path fs order p = .error .fileNotFound) ∧
    (p ∉ order → fs p = true →
      update_first_path fs order p = .ok (true, p :: order) ∧
      update_last_path fs order p = .ok (true, order ++ [p])) := by
  refine ⟨fun h => ?_, fun h hf => ?_, fun h hf => ?_⟩
  · simp [update_first_path_eq, update_last_path_eq, h]
  · simp [update_first_path_eq, update_last_path_eq, h, hf]
  · simp [update_first_path_eq, update_last_path_eq, h, hf]

/-- Witness for C7 at concrete inputs: a duplicate is refused (even on a
filesystem where nothing exists), a missing path raises, and a fresh
existing path is prepended resp. appended. -/
theorem update_path_contract_witness :
    update_first_path (fun _ => false) [1] (1 : Nat) = .ok (false, [1]) ∧
    update_first_path (fun _ => false) ([] : List Nat) 2 = .error .fileNotFound ∧
    update_last_path (fun _ => true) [1] (2 : Nat) = .ok (true, [1, 2]) :=
  ⟨((update_path_contract (fun _ => false) [1] 1).1 (by decide)).1,
   ((update_path_contract (fun _ => false) [] 2).2.1 (by decide) rfl).1,
   ((update_path_contract (fun _ => true) [1] 2).2.2 (by decide) rfl).2⟩

/-- C9: the derived version string is chromium_version-release_revision,
with a tilde suffix carrying release_extra when that key is defined (per
the schema a defined release_extra is non-empty). -/
theorem version_string_format (cv rr extra : String) :
    version_string [("chromium_version", cv), ("release_revision", rr)] =
      some (cv ++ "-" ++ rr) ∧
    (extra ≠ "" →
      version_string
          [("chromium_version", cv), ("release_revision", rr), ("release_extra", extra)] =
        some (cv ++ "-" ++ rr ++ "~" ++ extra)) := by
  constructor
  · simp [version_string, dictLookup, List.find?]
  · intro h
    simp [version_string, dictLookup, List.find?, h]

/-- Witness for C9: the spec's own examples, 90.0-1 and 90.0-1~extra. -/
theorem version_string_format_witness :
    version_string [("chromium_version", "90.0"), ("release_revision", "1")] =
      some ("90.0-1") ∧
    version_string
        [("chromium_version", "90.0"), ("release_revision", "1"), ("release_extra", "extra")] =
      some ("90.0-1~extra") := by
  have h := version_string_format ("90.0") ("1") ("extra")
  exact ⟨h.1, h.2 (by decide)⟩

/-- C6: merging ordered-list layers is pure concatenation in layer order —
reading a concatenation of layer lists is the concatenation of their
reads — and on the concrete layers a, blank, b followed by c the result
is exactly a, b, c: blank lines dropped, no deduplication, no
reordering. -/
theorem list_merge_pure_concat :
    (∀ (Path : Type) (fs : Path → String) (o1 o2 : List Path),
      line_generator fs (o1 ++ o2) = line_generator fs o1 ++ line_generator fs o2) ∧
    line_generator c6fs [0, 1] = ["a", "b", "c"] := by
  constructor
  · intro Path fs o1 o2
    induction o1 with
    | nil => simp [line_generator]
    | cons p t ih => simp [line_generator, ih]
  · rfl

/-- C1 counterexample: on the acyclic graph where 0 depends on 1 then 2
and 1 depends on 3, from_base_name produces the layer order 3,2,1,0 —
dependency 2 is explored before 1's own dependency 3, breadth first —
while the depth-first, declaration-order linearization is 2,3,1,0. -/
theorem from_base_name_not_depth_first :
    from_base_name c1env 0 10 = some (Except.ok [3, 2, 1, 0]) ∧
    spec_dfs_from_base_name c1env 0 10 = some [2, 3, 1, 0] ∧
    ([3, 2, 1, 0] : List Nat) ≠ [2, 3, 1, 0] :=
  ⟨rfl, rfl, by decide⟩

/-- C2 counterexample: a bundle that names itself as its dependency — the
name 0 is reachable twice — resolves without any error to the one-layer
order 0: the revisit is silently absorbed. -/
theorem from_base_name_self_dependency_absorbed :
    from_base_name c2env 0 10 = some (Except.ok [0]) ∧
    isDuplicateError (from_base_name c2env 0 10) = false :=
  ⟨rfl, rfl⟩

/-- C3 counterexample: the ordered-list variant does not cache — its class
takes no cache mixin — so the access after a first access still opens the
layer file: its read trace is the full path list, not empty. -/
theorem list_config_data_rereads_layers :
    (list_config_data c3fs (list_config_data c3fs ⟨[0]⟩).state).reads = [0] ∧
    (list_config_data c3fs (list_config_data c3fs ⟨[0]⟩).state).value = ["x"] ∧
    ([0] : List Nat) ≠ [] :=
  ⟨rfl, rfl, by decide⟩

/-- C4 counterexample: the line a=b=c, whose value would contain '=', does
not parse with key a and value b=c: split is unbounded, unpacking three
fields into two names raises ValueError. -/
theorem mapping_line_two_equals_raises :
    mapping_parse_data c4fs [0] = Except.error ConfigError.valueError ∧
    split_unpack2 ("a=b=c") = Except.error ConfigError.valueError :=
  ⟨rfl, rfl⟩

/-- C3 (amended core): for a cache-mixin config file (the key-value
mapping variant shown; the INI variant and the bundle use the same
mixin), a first access on an unset cache reads every layer path in
iteration order and stores the merged result, and — provided the parsed
result is non-empty, hence truthy — the following access returns the
stored result with an empty read trace. -/
theorem mapping_cache_first_then_hit {Path : Type} (fs : Path → String)
    (f : MappingConfigFile Path) (d : List (String × String))
    (hc : f.read_cache = none)
    (hp : mapping_parse_data fs f.path_order = Except.ok d)
    (hne : d ≠ []) :
    mapping_config_data fs f = Except.ok ⟨d, f.path_order, ⟨f.path_order, some d⟩⟩ ∧
    mapping_config_data fs ⟨f.path_order, some d⟩ =
      Except.ok ⟨d, [], ⟨f.path_order, some d⟩⟩ := by
  have hde : d.isEmpty = false := by
    cases d with
    | nil => exact absurd rfl hne
    | cons q t => rfl
  constructor
  · simp [mapping_config_data, hc, mapping_parse_run, hp]
  · simp [mapping_config_data, hde]

/-- Witness for C3's amended theorem: one layer holding the line k=1; the
first access reads path 0 and caches, the second reads nothing. -/
theorem mapping_cache_first_then_hit_witness :
    mapping_config_data c5fs ⟨[0], none⟩ =
      Except.ok ⟨[("k", "1")], [0], ⟨[0], some [("k", "1")]⟩⟩ ∧
    mapping_config_data c5fs ⟨[0], some [("k", "1")]⟩ =
      Except.ok ⟨[("k", "1")], [], ⟨[0], some [("k", "1")]⟩⟩ :=
  mapping_cache_first_then_hit c5fs ⟨[0], none⟩ [("k", "1")] rfl rfl (by decide)

/-- C10: when the merged parse result is the empty dictionary — a falsy
value — the truthiness guard of _CacheConfigMixin never serves the stored
value, so every one of n+1 successive accesses re-runs the full parse,
reading the whole layered path list each time. -/
theorem mapping_empty_result_reparses {Path : Type} (fs : Path → String)
    (f : MappingConfigFile Path) (n : Nat)
    (hp : mapping_parse_data fs f.path_order = Except.ok [])
    (hc : f.read_cache = none ∨ f.read_cache = some []) :
    mapping_access_iter fs (n + 1) f =
      Except.ok (List.replicate (n + 1) f.path_order, ⟨f.path_order, some []⟩) := by
  induction n generalizing f with
  | zero =>
    have hacc : mapping_config_data fs f =
        Except.ok ⟨[], f.path_order, ⟨f.path_order, some []⟩⟩ := by
      rcases hc with h | h <;> simp [mapping_config_data, h, mapping_parse_run, hp]
    simp [mapping_access_iter, hacc]
  | succ m ih =>
    have hacc : mapping_config_data fs f =
        Except.ok ⟨[], f.path_order, ⟨f.path_order, some []⟩⟩ := by
      rcases hc with h | h <;> simp [mapping_config_data, h, mapping_parse_run, hp]
    have hrec := ih (⟨f.path_order, some []⟩ : MappingConfigFile Path) hp (Or.inr rfl)
    have step : mapping_access_iter fs (m + 1 + 1) f =
        match mapping_config_data fs f with
        | .error e => .error e
        | .ok r =>
          match mapping_access_iter fs (m + 1) r.state with
          | .error e => .error e
          | .ok (trs, fin) => .ok (r.reads :: trs, fin) := rfl
    rw [step, hacc]
    simp [hrec, List.replicate_succ]

/-- Witness for C10: a single empty layer; two successive accesses both
read path 0, and the cache field ends up holding the falsy empty result. -/
theorem mapping_empty_result_reparses_witness :
    mapping_access_iter c10fs 2 ⟨[0], none⟩ =
      Except.ok ([[0], [0]], ⟨[0], some []⟩) :=
  mapping_empty_result_reparses c10fs ⟨[0], none⟩ 1 rfl (Or.inl rfl)

/-- Splitting never produces an empty field list. -/
theorem splitChar_ne_nil (sep : Char) (l : List Char) : splitChar sep l ≠ [] := by
  cases l with
  | nil => simp [splitChar]
  | cons c cs =>
    simp only [splitChar]
    cases splitChar sep cs with
    | nil => simp
    | cons w ws => by_cases hc : c = sep <;> simp [hc]

/-- A list free of the separator splits into the single field it is. -/
theorem splitChar_not_mem (sep : Char) (l : List Char) (h : sep ∉ l) :
    splitChar sep l = [l] := by
  induction l with
  | nil => rfl
  | cons c cs ih =>
    rw [List.mem_cons, not_or] at h
    simp [splitChar, ih h.2, Ne.symm h.1]

/-- Splitting at the first separator occurrence: the prefix free of the
separator becomes the first field. -/
theorem splitChar_sep_mid (sep : Char) (k v : List Char) (hk : sep ∉ k) :
    splitChar sep (k ++ sep :: v) = k :: splitChar sep v := by
  induction k with
  | nil =>
    simp only [List.nil_append]
    cases hv : splitChar sep v with
    | nil => exact absurd hv (splitChar_ne_nil sep v)
    | cons w ws => simp [splitChar, hv]
  | cons c cs ih =>
    rw [List.mem_cons, not_or] at hk
    simp [splitChar, ih hk.2, Ne.symm hk.1]

/-- C4 (amended core): a non-empty line with exactly one '=' — neither the
key nor the value contains another one — is split there into that key and
that value; values containing '=' are instead rejected (see the
counterexample). -/
theorem split_unpack2_single_equals (k v : List Char)
    (hk : '=' ∉ k) (hv : '=' ∉ v) :
    split_unpack2 (String.mk (k ++ '=' :: v)) = Except.ok (String.mk k, String.mk v) := by
  have hdata : (String.mk (k ++ '=' :: v)).data = k ++ '=' :: v := rfl
  simp only [split_unpack2, hdata, splitChar_sep_mid _ _ _ hk, splitChar_not_mem _ _ hv]

/-- Witness for C4's amended theorem: the line a=b parses into key a and
value b. -/
theorem split_unpack2_single_equals_witness :
    split_unpack2 ("a=b") = Except.ok ("a", "b") :=
  split_unpack2_single_equals ['a'] ['b'] (by decide) (by decide)

/-- C8: on a section where every required key, the optional
strip_leading_dirs key and exactly the sha256 checksum are set, the
hashes mapping holds exactly the one sha256 entry and required keys pass
through — but strip_leading_dirs comes back None although it is present:
the source's ('strip_leading_dirs') is a plain string, so the
passthrough-property tuple holds its characters, never the key itself. -/
theorem extra_deps_optional_key_not_exposed :
    extraDepsGetattr c8sec ("strip_leading_dirs") = none ∧
    dictLookup c8sec ("strip_leading_dirs") = some ("inner") ∧
    extraDepsGetattr c8sec ("hashes") = some (AttrValue.dict [("sha256", "cafe")]) ∧
    extraDepsGetattr c8sec ("version") = some (AttrValue.str ("1.0")) ∧
    extraDepsGetattr c8sec ("url") = some (AttrValue.str ("https:u")) ∧
    extraDepsGetattr c8sec ("download_name") = some (AttrValue.str ("dl")) :=
  ⟨rfl, rfl, rfl, rfl, rfl, rfl⟩


/-- The first option wins in the override combinator. -/
theorem orElseOpt_some (v : String) (o : Option String) :
    orElseOpt (some v) o = some v := rfl

/-- An absent first option falls back to the second. -/
theorem orElseOpt_none (o : Option String) : orElseOpt none o = o := rfl

/-- Lookup in the empty dictionary. -/
theorem dictLookup_nil (k : String) : dictLookup [] k = none := rfl

/-- Unfolding lookup over a cons cell. -/
theorem dictLookup_cons (q : String × String) (t : List (String × String)) (k : String) :
    dictLookup (q :: t) k = if q.1 = k then some q.2 else dictLookup t k := by
  by_cases h : q.1 = k
  · have hb : (q.1 == k) = true := beq_iff_eq.mpr h
    simp [dictLookup, List.find?_cons, hb, h]
  · have hb : (q.1 == k) = false := by
      cases hx : q.1 == k
      · rfl
      · exact absurd (beq_iff_eq.mp hx) h
    simp [dictLookup, List.find?_cons, hb, h]

/-- Lookup distributes over append, earlier entries taking precedence. -/
theorem dictLookup_append (d1 d2 : List (String × String)) (k : String) :
    dictLookup (d1 ++ d2) k = orElseOpt (dictLookup d1 k) (dictLookup d2 k) := by
  induction d1 with
  | nil => rw [List.nil_append, dictLookup_nil, orElseOpt_none]
  | cons q t ih =>
    rw [List.cons_append, dictLookup_cons, dictLookup_cons]
    by_cases h : q.1 = k
    · rw [if_pos h, if_pos h, orElseOpt_some]
    · rw [if_neg h, if_neg h, ih]

/-- The override combinator is associative. -/
theorem orElseOpt_assoc (a b c : Option String) :
    orElseOpt (orElseOpt a b) c = orElseOpt a (orElseOpt b c) := by
  cases a <;> rfl

/-- Replacing the value stored under an existing key makes the lookup of
that key find the new value. -/
theorem dictLookup_map_insert_self (k2 v : String) :
    ∀ d : List (String × String), d.any (fun q => q.1 == k2) = true →
    dictLookup (d.map (fun q => if q.1 == k2 then (k2, v) else q)) k2 = some v := by
  intro d
  induction d with
  | nil => intro h; simp at h
  | cons q t ih =>
    intro h
    rw [List.map_cons]
    by_cases hq : q.1 = k2
    · have h1 : (if q.1 == k2 then (k2, v) else q) = (k2, v) := by simp [hq]
      rw [h1, dictLookup_cons, if_pos rfl]
    · have hqb : (q.1 == k2) = false := by
        cases hx : q.1 == k2
        · rfl
        · exact absurd (beq_iff_eq.mp hx) hq
      have h1 : (if q.1 == k2 then (k2, v) else q) = q := by simp [hqb]
      rw [h1, dictLookup_cons, if_neg hq]
      exact ih (by simpa [List.any_cons, hqb] using h)

/-- Replacing the value stored under one key leaves the lookup of every
other key unchanged. -/
theorem dictLookup_map_insert_other (k k2 v : String) (hk : k ≠ k2) :
    ∀ d : List (String × String),
    dictLookup (d.map (fun q => if q.1 == k2 then (k2, v) else q)) k = dictLookup d k := by
  intro d
  induction d with
  | nil => rfl
  | cons q t ih =>
    rw [List.map_cons]
    by_cases hq : q.1 = k2
    · have h1 : (if q.1 == k2 then (k2, v) else q) = (k2, v) := by simp [hq]
      rw [h1, dictLookup_cons, dictLookup_cons,
        if_neg (fun hc : k2 = k => hk hc.symm),
        if_neg (fun hc : q.1 = k => hk ((hq ▸ hc).symm)), ih]
    · have hqb : (q.1 == k2) = false := by
        cases hx : q.1 == k2
        · rfl
        · exact absurd (beq_iff_eq.mp hx) hq
      have h1 : (if q.1 == k2 then (k2, v) else q) = q := by simp [hqb]
      rw [h1, dictLookup_cons, dictLookup_cons]
      by_cases hqk : q.1 = k
      · rw [if_pos hqk, if_pos hqk]
      · rw [if_neg hqk, if_neg hqk, ih]

/-- Lookup after a dictionary assignment: the assigned key now maps to
the assigned value, every other key is unaffected. -/
theorem dictLookup_dictInsert (d : List (String × String)) (k k2 v : String) :
    dictLookup (dictInsert d k2 v) k = if k = k2 then some v else dictLookup d k := by
  cases hany : d.any (fun q => q.1 == k2) with
  | true =>
    have hins : dictInsert d k2 v = d.map (fun q => if q.1 == k2 then (k2, v) else q) := by
      simp [dictInsert, hany]
    rw [hins]
    by_cases hk : k = k2
    · subst hk
      rw [if_pos rfl]
      exact dictLookup_map_insert_self k v d hany
    · rw [if_neg hk]
      exact dictLookup_map_insert_other k k2 v hk d
  | false =>
    have hins : dictInsert d k2 v = d ++ [(k2, v)] := by simp [dictInsert, hany]
    rw [hins, dictLookup_append]
    by_cases hk : k = k2
    · subst hk
      have hnone : dictLookup d k = none := by
        simp only [dictLookup]
        rw [List.find?_eq_none.mpr (fun q hq => by
          simpa using List.any_eq_false.mp hany q hq)]
        rfl
      rw [hnone, orElseOpt_none, dictLookup_cons, if_pos rfl, if_pos rfl]
    · have hsing : dictLookup [(k2, v)] k = none := by
        rw [dictLookup_cons, if_neg (fun hc : k2 = k => hk hc.symm), dictLookup_nil]
      rw [hsing, if_neg hk]
      cases hd : dictLookup d k
      · rw [orElseOpt_none]
      · rw [orElseOpt_some]

/-- The empty pair list assigns nothing. -/
theorem lastAssign_nil (k : String) : lastAssign k [] = none := rfl

/-- Unfolding the last assignment over a cons cell: the tail, being
later, takes precedence over the head pair. -/
theorem lastAssign_cons (k : String) (q : String × String) (t : List (String × String)) :
    lastAssign k (q :: t) =
      orElseOpt (lastAssign k t) (if q.1 = k then some q.2 else none) := by
  cases ht : lastAssign k t
  · by_cases h : q.1 = k
    · have hb : (q.1 == k) = true := beq_iff_eq.mpr h
      simp [lastAssign, ht, orElseOpt, hb, h]
    · have hb : (q.1 == k) = false := by
        cases hx : q.1 == k
        · rfl
        · exact absurd (beq_iff_eq.mp hx) h
      simp [lastAssign, ht, orElseOpt, hb, h]
  · simp [lastAssign, ht, orElseOpt]

/-- The last assignment over an append comes from the right part when it
assigns the key at all, else from the left part. -/
theorem lastAssign_append (k : String) (a b : List (String × String)) :
    lastAssign k (a ++ b) = orElseOpt (lastAssign k b) (lastAssign k a) := by
  induction a with
  | nil =>
    rw [List.nil_append, lastAssign_nil]
    cases h : lastAssign k b
    · rw [orElseOpt_none]
    · rw [orElseOpt_some]
  | cons q t ih =>
    rw [List.cons_append, lastAssign_cons, lastAssign_cons, ih, orElseOpt_assoc]

/-- Lookup after folding a pair list into a dictionary: the last
assignment of the key wins, the starting dictionary is the fallback. -/
theorem dictLookup_foldl (ps : List (String × String)) :
    ∀ (d : List (String × String)) (k : String),
    dictLookup (ps.foldl (fun acc q => dictInsert acc q.1 q.2) d) k =
      orElseOpt (lastAssign k ps) (dictLookup d k) := by
  induction ps with
  | nil => intro d k; rw [List.foldl_nil, lastAssign_nil, orElseOpt_none]
  | cons q t ih =>
    intro d k
    rw [List.foldl_cons, ih, lastAssign_cons, dictLookup_dictInsert, orElseOpt_assoc]
    congr 1
    by_cases h : q.1 = k
    · rw [if_pos h, if_pos h.symm, orElseOpt_some]
    · rw [if_neg h, if_neg (fun hc => h hc.symm), orElseOpt_none]

/-- The dictionary-building line loop is the pair-collecting line loop
followed by folding the pairs into the accumulator dictionary. -/
theorem parse_mapping_lines_eq (lines : List String) :
    ∀ d : List (String × String),
    parse_mapping_lines d lines =
      (parse_pairs_lines lines).map
        (fun ps => ps.foldl (fun acc q => dictInsert acc q.1 q.2) d) := by
  induction lines with
  | nil => intro d; rfl
  | cons line rest ih =>
    intro d
    cases hs : split_unpack2 line with
    | error e => simp [parse_mapping_lines, parse_pairs_lines, hs, Except.map]
    | ok kv =>
      obtain ⟨k, v⟩ := kv
      cases hr : parse_pairs_lines rest with
      | error e =>
        simp [parse_mapping_lines, parse_pairs_lines, hs, hr,
          ih (dictInsert d k v), Except.map]
      | ok ps =>
        simp [parse_mapping_lines, parse_pairs_lines, hs, hr,
          ih (dictInsert d k v), Except.map]

/-- The dictionary-building path loop is the pair-collecting path loop
followed by folding all pairs into the accumulator dictionary. -/
theorem parse_mapping_paths_eq {Path : Type} (fs : Path → String) (order : List Path) :
    ∀ d : List (String × String),
    parse_mapping_paths fs d order =
      (all_pairs fs order).map
        (fun ps => ps.foldl (fun acc q => dictInsert acc q.1 q.2) d) := by
  induction order with
  | nil => intro d; rfl
  | cons p rest ih =>
    intro d
    cases hl : layer_pairs fs p with
    | error e =>
      have hml : parse_mapping_lines d (readLines (fs p)) = .error e := by
        rw [parse_mapping_lines_eq]
        rw [show parse_pairs_lines (readLines (fs p)) = .error e from hl]
        rfl
      simp [parse_mapping_paths, all_pairs, hl, hml, Except.map]
    | ok ps =>
      have hml : parse_mapping_lines d (readLines (fs p)) =
          .ok (ps.foldl (fun acc q => dictInsert acc q.1 q.2) d) := by
        rw [parse_mapping_lines_eq]
        rw [show parse_pairs_lines (readLines (fs p)) = .ok ps from hl]
        rfl
      cases ha : all_pairs fs rest with
      | error e => simp [parse_mapping_paths, all_pairs, hl, hml, ha, ih, Except.map]
      | ok qs =>
        simp [parse_mapping_paths, all_pairs, hl, hml, ha, ih, Except.map,
          List.foldl_append]

/-- A successful pair collection over appended layer lists splits into
successful collections over the parts. -/
theorem all_pairs_append {Path : Type} (fs : Path → String) (o1 o2 : List Path) :
    ∀ ps : List (String × String), all_pairs fs (o1 ++ o2) = Except.ok ps →
    ∃ a b, all_pairs fs o1 = Except.ok a ∧ all_pairs fs o2 = Except.ok b ∧ ps = a ++ b := by
  induction o1 with
  | nil => intro ps h; exact ⟨[], ps, rfl, h, rfl⟩
  | cons p t ih =>
    intro ps h
    rw [List.cons_append] at h
    cases hl : layer_pairs fs p with
    | error e => simp [all_pairs, hl] at h
    | ok ls =>
      cases ht : all_pairs fs (t ++ o2) with
      | error e => simp [all_pairs, hl, ht] at h
      | ok qs =>
        simp only [all_pairs, hl, ht] at h
        obtain ⟨a, b, h1, h2, h3⟩ := ih qs ht
        refine ⟨ls ++ a, b, by simp [all_pairs, hl, h1], h2, ?_⟩
        have hps : ls ++ qs = ps := by simpa using h
        rw [← hps, h3, List.append_assoc]

/-- When no layer of a path list assigns the key, the collected pairs of
those layers do not assign it either. -/
theorem all_pairs_none_key {Path : Type} (fs : Path → String) (k : String) :
    ∀ (post : List Path) (b : List (String × String)),
    (∀ p ∈ post, ∀ ps, layer_pairs fs p = Except.ok ps → lastAssign k ps = none) →
    all_pairs fs post = Except.ok b → lastAssign k b = none := by
  intro post
  induction post with
  | nil =>
    intro b _ h
    have : ([] : List (String × String)) = b := by simpa [all_pairs] using h
    rw [← this, lastAssign_nil]
  | cons p t ih =>
    intro b hp h
    cases hl : layer_pairs fs p with
    | error e => simp [all_pairs, hl] at h
    | ok ls =>
      cases ht : all_pairs fs t with
      | error e => simp [all_pairs, hl, ht] at h
      | ok qs =>
        simp only [all_pairs, hl, ht] at h
        have hb : ls ++ qs = b := by simpa using h
        rw [← hb, lastAssign_append]
        have h1 : lastAssign k ls = none := hp p (List.mem_cons_self p t) ls hl
        have h2 : lastAssign k qs = none :=
          ih qs (fun p2 hp2 => hp p2 (List.mem_cons_of_mem p hp2)) ht
        rw [h1, h2, orElseOpt_none]

/-- A successful mapping parse looks keys up as the last assignment over
the pairs of all layers in iteration order. -/
theorem mapping_lookup_lastAssign {Path : Type} (fs : Path → String) (order : List Path)
    (d : List (String × String)) (h : mapping_parse_data fs order = Except.ok d) :
    ∃ ps, all_pairs fs order = Except.ok ps ∧ ∀ k, dictLookup d k = lastAssign k ps := by
  unfold mapping_parse_data at h
  rw [parse_mapping_paths_eq] at h
  cases ha : all_pairs fs order with
  | error e => rw [ha] at h; simp [Except.map] at h
  | ok ps =>
    rw [ha] at h
    simp only [Except.map, Except.ok.injEq] at h
    refine ⟨ps, rfl, fun k => ?_⟩
    rw [← h, dictLookup_foldl, dictLookup_nil]
    cases hl : lastAssign k ps
    · rw [orElseOpt_none]
    · rw [orElseOpt_some]

/-- C5: last-wins per key.  In a layer sequence where layer p1 defines
the key k and a later layer p2 is the last to define k — every layer
after p2 leaves k unassigned — the merged mapping's value for k is
exactly p2's (last) value for k, however many earlier layers defined k. -/
theorem mapping_merge_last_wins {Path : Type} (fs : Path → String)
    (pre mid post : List Path) (p1 p2 : Path) (k v1 v2 : String)
    (d ps1 ps2 : List (String × String))
    (hparse : mapping_parse_data fs (pre ++ p1 :: (mid ++ p2 :: post)) = Except.ok d)
    (h1 : layer_pairs fs p1 = Except.ok ps1)
    (hk1 : lastAssign k ps1 = some v1)
    (h2 : layer_pairs fs p2 = Except.ok ps2)
    (hk2 : lastAssign k ps2 = some v2)
    (hpost : ∀ p ∈ post, ∀ ps, layer_pairs fs p = Except.ok ps → lastAssign k ps = none) :
    dictLookup d k = some v2 := by
  obtain ⟨ps, hall, hlk⟩ := mapping_lookup_lastAssign fs _ d hparse
  obtain ⟨a, b1, _, hb1, hps⟩ := all_pairs_append fs pre _ ps hall
  cases hm : all_pairs fs (mid ++ p2 :: post) with
  | error e => simp [all_pairs, h1, hm] at hb1
  | ok b2 =>
    simp only [all_pairs, h1, hm] at hb1
    have hb1' : ps1 ++ b2 = b1 := by simpa using hb1
    obtain ⟨m, b3, _, hm2, hm3⟩ := all_pairs_append fs mid _ b2 hm
    cases ht : all_pairs fs post with
    | error e => simp [all_pairs, h2, ht] at hm2
    | ok b4 =>
      simp only [all_pairs, h2, ht] at hm2
      have hb3 : ps2 ++ b4 = b3 := by simpa using hm2
      have h4 : lastAssign k b4 = none := all_pairs_none_key fs k post b4 hpost ht
      rw [hlk k, hps, ← hb1', hm3, ← hb3]
      rw [lastAssign_append, lastAssign_append, lastAssign_append, lastAssign_append]
      rw [h4, orElseOpt_none, hk2, orElseOpt_some, orElseOpt_some, orElseOpt_some]

/-- Witness for C5: layers k=1 then k=2 merge to the value 2 for key k. -/
theorem mapping_merge_last_wins_witness :
    dictLookup [("k", "2")] ("k") = some ("2") :=
  mapping_merge_last_wins c5fs [] [] [] 0 1 ("k") ("1") ("2")
    [("k", "2")] [("k", "1")] [("k", "2")] rfl rfl rfl rfl rfl
    (fun p hp => absurd hp (List.not_mem_nil p))


/-- The dependency loop of the source, run on the reversed queue, is the
spec's queue-based dependency step: consing onto the left end of the
pending deque is enqueueing at the tail of the queue. -/
theorem explore_deps_eq_spec {Name : Type} [DecidableEq Name] (dirEx : Name → Bool) :
    ∀ (deps order queue : List Name),
    explore_deps dirEx deps order queue.reverse =
      (spec_bfs_explore_deps dirEx deps order queue).map (fun r => (r.1, r.2.reverse)) := by
  intro deps
  induction deps with
  | nil => intro order queue; rfl
  | cons d rest ih =>
    intro order queue
    by_cases h : d ∈ order
    · simp only [explore_deps, spec_bfs_explore_deps, update_first_path_eq, if_pos h]
      exact ih order queue
    · cases hf : dirEx d with
      | true =>
        simp only [explore_deps, spec_bfs_explore_deps, update_first_path_eq,
          if_neg h, hf]
        have hrev : d :: queue.reverse = (queue ++ [d]).reverse := by
          rw [List.reverse_append, List.reverse_singleton, List.singleton_append]
        show explore_deps dirEx rest (d :: order) (d :: queue.reverse) =
          (spec_bfs_explore_deps dirEx rest (d :: order) (queue ++ [d])).map
            (fun r => (r.1, r.2.reverse))
        rw [hrev]
        exact ih (d :: order) (queue ++ [d])
      | false =>
        simp only [explore_deps, spec_bfs_explore_deps, update_first_path_eq,
          if_neg h, hf]
        rfl

/-- The while loop of the source, run on the reversed queue, is the
spec's breadth-first loop: popping the deque's right end is dequeuing
the queue's head. -/
theorem resolve_loop_eq_spec {Name : Type} [DecidableEq Name] (env : BundleEnv Name) :
    ∀ (fuel : Nat) (order queue known : List Name),
    resolve_loop env fuel order queue.reverse known = spec_bfs_loop env fuel order queue known := by
  intro fuel
  induction fuel with
  | zero => intro order queue known; rfl
  | succ m ih =>
    intro order queue known
    cases queue with
    | nil => rfl
    | cons n rest =>
      have h1 : (n :: rest).reverse.getLast? = some n := by
        rw [List.reverse_cons, List.getLast?_concat]
      have h2 : (n :: rest).reverse.dropLast = rest.reverse := by
        rw [List.reverse_cons, List.dropLast_concat]
      simp only [resolve_loop, spec_bfs_loop, h1, h2]
      by_cases hk : n ∈ known
      · simp [hk]
      · simp only [hk, if_false]
        cases hm : env.meta n with
        | none => rfl
        | some deps =>
          show (match explore_deps env.dirExists deps order rest.reverse with
              | Except.error e => some (Except.error e)
              | Except.ok (order2, pending2) =>
                resolve_loop env m order2 pending2 (n :: known)) =
            (match spec_bfs_explore_deps env.dirExists deps order rest with
              | Except.error e => some (Except.error e)
              | Except.ok (order2, queue2) =>
                spec_bfs_loop env m order2 queue2 (n :: known))
          rw [explore_deps_eq_spec]
          cases he : spec_bfs_explore_deps env.dirExists deps order rest with
          | error e => rfl
          | ok r =>
            obtain ⟨o2, q2⟩ := r
            exact ih o2 q2 (n :: known)

/-- The spec's dependency step only ever fails with file-not-found. -/
theorem spec_bfs_explore_deps_error {Name : Type} [DecidableEq Name] (dirEx : Name → Bool) :
    ∀ (deps order queue : List Name) (e : ConfigError),
    spec_bfs_explore_deps dirEx deps order queue = .error e → e = .fileNotFound := by
  intro deps
  induction deps with
  | nil => intro order queue e h; simp [spec_bfs_explore_deps] at h
  | cons d rest ih =>
    intro order queue e h
    by_cases hd : d ∈ order
    · rw [spec_bfs_explore_deps, if_pos hd] at h
      exact ih _ _ _ h
    · cases hf : dirEx d with
      | true =>
        simp only [spec_bfs_explore_deps, if_neg hd, hf, if_pos rfl] at h
        exact ih _ _ _ h
      | false =>
        simp only [spec_bfs_explore_deps, if_neg hd, hf] at h
        have : (if (false = true) then
            spec_bfs_explore_deps dirEx rest (d :: order) (queue ++ [d])
          else Except.error ConfigError.fileNotFound) =
            Except.error ConfigError.fileNotFound := by
          rw [if_neg (fun hc : false = true => Bool.noConfusion hc)]
        rw [this] at h
        exact (Except.error.inj h).symm

/-- The spec's dependency step preserves the loop invariant: the queue
stays duplicate-free, disjoint from the visited set, and every queued or
visited name keeps a layer in the order; the order only grows. -/
theorem spec_bfs_explore_deps_inv {Name : Type} [DecidableEq Name] (dirEx : Name → Bool)
    (known : List Name) :
    ∀ (deps order queue order2 queue2 : List Name),
    spec_bfs_explore_deps dirEx deps order queue = .ok (order2, queue2) →
    queue.Nodup → (∀ x ∈ queue, x ∉ known) → (∀ x ∈ queue, x ∈ order) →
    (∀ x ∈ known, x ∈ order) →
    queue2.Nodup ∧ (∀ x ∈ queue2, x ∉ known) ∧ (∀ x ∈ queue2, x ∈ order2) ∧
      (∀ x ∈ known, x ∈ order2) := by
  intro deps
  induction deps with
  | nil =>
    intro order queue o2 q2 h hnd hdisj hqo hko
    simp only [spec_bfs_explore_deps, Except.ok.injEq, Prod.mk.injEq] at h
    obtain ⟨ho, hq⟩ := h
    exact ho ▸ hq ▸ ⟨hnd, hdisj, hqo, hko⟩
  | cons d rest ih =>
    intro order queue o2 q2 h hnd hdisj hqo hko
    by_cases hd : d ∈ order
    · rw [spec_bfs_explore_deps, if_pos hd] at h
      exact ih _ _ _ _ h hnd hdisj hqo hko
    · cases hf : dirEx d with
      | false =>
        simp only [spec_bfs_explore_deps, if_neg hd, hf] at h
        have : (if (false = true) then
            spec_bfs_explore_deps dirEx rest (d :: order) (queue ++ [d])
          else Except.error ConfigError.fileNotFound) =
            Except.error ConfigError.fileNotFound := by
          rw [if_neg (fun hc : false = true => Bool.noConfusion hc)]
        rw [this] at h
        exact absurd h (by simp)
      | true =>
        simp only [spec_bfs_explore_deps, if_neg hd, hf, if_pos rfl] at h
        have hdq : d ∉ queue := fun hm => hd (hqo d hm)
        refine ih (d :: order) (queue ++ [d]) o2 q2 h ?_ ?_ ?_ ?_
        · exact List.Nodup.append hnd (List.nodup_singleton d)
            (fun x hx hx2 => hdq ((List.mem_singleton.mp hx2) ▸ hx))
        · intro x hx
          rcases List.mem_append.mp hx with hx | hx
          · exact hdisj x hx
          · rw [List.mem_singleton.mp hx]
            exact fun hkn => hd (hko d hkn)
        · intro x hx
          rcases List.mem_append.mp hx with hx | hx
          · exact List.mem_cons_of_mem d (hqo x hx)
          · rw [List.mem_singleton.mp hx]
            exact List.mem_cons_self d order
        · intro x hx
          exact List.mem_cons_of_mem d (hko x hx)

/-- The spec's breadth-first loop never raises the duplicate-dependency
error while the invariant holds: the dequeued name is never in the
visited set. -/
theorem spec_bfs_loop_no_dup {Name : Type} [DecidableEq Name] (env : BundleEnv Name) :
    ∀ (fuel : Nat) (order queue known : List Name),
    queue.Nodup → (∀ x ∈ queue, x ∉ known) → (∀ x ∈ queue, x ∈ order) →
    (∀ x ∈ known, x ∈ order) →
    spec_bfs_loop env fuel order queue known ≠ some (.error .duplicateDependency) := by
  intro fuel
  induction fuel with
  | zero => intro order queue known _ _ _ _ h; simp [spec_bfs_loop] at h
  | succ m ih =>
    intro order queue known hnd hdisj hqo hko
    cases queue with
    | nil => intro h; simp [spec_bfs_loop] at h
    | cons n rest =>
      have hnk : n ∉ known := hdisj n (List.mem_cons_self n rest)
      rw [spec_bfs_loop, if_neg hnk]
      cases hm : env.meta n with
      | none => intro h; simp at h
      | some deps =>
        show (match spec_bfs_explore_deps env.dirExists deps order rest with
            | Except.error e => some (Except.error e)
            | Except.ok (order2, queue2) =>
              spec_bfs_loop env m order2 queue2 (n :: known)) ≠
          some (Except.error ConfigError.duplicateDependency)
        cases he : spec_bfs_explore_deps env.dirExists deps order rest with
        | error e =>
          have he2 := spec_bfs_explore_deps_error env.dirExists deps order rest e he
          subst he2
          intro h
          simp at h
        | ok r =>
          obtain ⟨o2, q2⟩ := r
          have hrest_nd : rest.Nodup := (List.nodup_cons.mp hnd).2
          have hn_rest : n ∉ rest := (List.nodup_cons.mp hnd).1
          have inv := spec_bfs_explore_deps_inv env.dirExists (n :: known) deps order rest
            o2 q2 he hrest_nd
            (fun x hx => by
              rw [List.mem_cons, not_or]
              exact ⟨fun hxn => hn_rest (hxn ▸ hx), hdisj x (List.mem_cons_of_mem n hx)⟩)
            (fun x hx => hqo x (List.mem_cons_of_mem n hx))
            (fun x hx => by
              rcases List.mem_cons.mp hx with hxn | hxk
              · exact hxn ▸ hqo n (List.mem_cons_self n rest)
              · exact hko x hxk)
          exact ih o2 q2 (n :: known) inv.1 inv.2.1 inv.2.2.1 inv.2.2.2

/-- C1 (amended): from_base_name resolves the dependency graph by
queue-based (FIFO), breadth-first, declaration-order traversal: on every
input the resulting front-to-back layer order equals the breadth-first,
declaration-order linearization of the dependency graph — in particular
resolution is deterministic — and not, in general, the depth-first one
(see the counterexample). -/
theorem from_base_name_eq_spec_bfs {Name : Type} [DecidableEq Name]
    (env : BundleEnv Name) (name : Name) (fuel : Nat) :
    from_base_name env name fuel = spec_bfs_from_base_name env name fuel := by
  unfold from_base_name spec_bfs_from_base_name
  cases h : env.dirExists name with
  | false => rfl
  | true =>
    have := resolve_loop_eq_spec env fuel [name] [name] []
    simpa using this

/-- C2 (amended): from_base_name never raises the duplicate-dependency
ValueError: a revisited bundle name is silently skipped, because its
directory is already a member of the layered path list, so the prepend
reports it as known and it is never pushed for exploration again. -/
theorem from_base_name_never_duplicate_error {Name : Type} [DecidableEq Name]
    (env : BundleEnv Name) (name : Name) (fuel : Nat) :
    isDuplicateError (from_base_name env name fuel) = false := by
  unfold from_base_name
  cases h : env.dirExists name with
  | false => rfl
  | true =>
    have heq : resolve_loop env fuel [name] [name] [] =
        spec_bfs_loop env fuel [name] [name] [] := by
      have := resolve_loop_eq_spec env fuel [name] [name] []
      simpa using this
    have hne := spec_bfs_loop_no_dup env fuel [name] [name] []
      (List.nodup_singleton name)
      (fun x _ hx => (List.not_mem_nil x) hx)
      (fun x hx => hx)
      (fun x hx => absurd hx (List.not_mem_nil x))
    show isDuplicateError (if (true = true) then
        resolve_loop env fuel [name] [name] [] else some (.error .fileNotFound)) = false
    rw [if_pos rfl, heq]
    cases hx : spec_bfs_loop env fuel [name] [name] [] with
    | none => rfl
    | some r =>
      cases r with
      | ok l => rfl
      | error e =>
        cases e with
        | fileNotFound => rfl
        | metadataError => rfl
        | valueError => rfl
        | duplicateDependency => exact absurd hx hne
